import Mathlib

/-!
Shallow embedding of the commit classification, version resolution and
tag management core of a monorepo release automation action, together
with theorems checking the specification against the embedded code.
-/

namespace TurboGoreleaser

/-!
Section one: JavaScript style string primitives. The source manipulates
JS strings with split, includes, startsWith, trim and replace. They are
modelled on lists of characters with structural recursion (fuel where a
multi-character separator is consumed) and lifted to String through the
underlying character list.
-/

/-- Tests whether the text (second argument) begins with the pattern (first argument). -/
def startsWithL : List Char → List Char → Bool
  | [], _ => true
  | _ :: _, [] => false
  | p :: ps, c :: cs => p == c && startsWithL ps cs

/-- Tests whether the pattern occurs as a contiguous sublist of the text,
modelling the JS String includes method. -/
def containsL (pat : List Char) : List Char → Bool
  | [] => startsWithL pat []
  | c :: cs => startsWithL pat (c :: cs) || containsL pat cs

/-- Fueled worker for splitting a character list at every occurrence of a
separator, accumulating the current piece in reverse. The fuel is an upper
bound on the number of characters still to be consumed. -/
def splitLAux (sep : List Char) : Nat → List Char → List Char → List (List Char)
  | _, [], cur => [cur.reverse]
  | 0, text, cur => [cur.reverse ++ text]
  | fuel + 1, c :: cs, cur =>
    if startsWithL sep (c :: cs) then
      cur.reverse :: splitLAux sep fuel (List.drop sep.length (c :: cs)) []
    else
      splitLAux sep fuel cs (c :: cur)

/-- Splits a character list at every occurrence of a separator, modelling
the JS String split method for a nonempty separator. -/
def splitL (sep text : List Char) : List (List Char) :=
  splitLAux sep (text.length + 1) text []

/-- Replaces the first occurrence of the pattern in the text by the
replacement, modelling the JS String replace method called with a plain
string pattern. -/
def replaceFirstL (pat rep : List Char) : List Char → List Char
  | [] => []
  | c :: cs =>
    if startsWithL pat (c :: cs) then rep ++ List.drop pat.length (c :: cs)
    else c :: replaceFirstL pat rep cs

/-- JS whitespace test for the characters that occur in this development. -/
def isWhite (c : Char) : Bool :=
  c == ' ' || c == '\t' || c == '\n' || c == '\r'

/-- Removes leading and trailing whitespace, modelling the JS String trim method. -/
def trimL (l : List Char) : List Char :=
  ((l.dropWhile isWhite).reverse.dropWhile isWhite).reverse

/-- String wrapper for `splitL`. -/
def jsSplit (s sep : String) : List String :=
  (splitL sep.data s.data).map String.mk

/-- String wrapper for `containsL`. -/
def jsIncludes (s pat : String) : Bool :=
  containsL pat.data s.data

/-- String wrapper for `startsWithL`. -/
def jsStartsWith (s pat : String) : Bool :=
  startsWithL pat.data s.data

/-- String wrapper for `trimL`. -/
def jsTrim (s : String) : String :=
  String.mk (trimL s.data)

/-- String wrapper for `replaceFirstL`. -/
def jsReplaceFirst (s pat rep : String) : String :=
  String.mk (replaceFirstL pat.data rep.data s.data)

/-- Replaces every occurrence of a single character by another single
character, modelling the JS String replace method with a global one
character regular expression. -/
def jsReplaceAllChar (s : String) (a b : Char) : String :=
  String.mk (s.data.map (fun c => if c == a then b else c))

/-!
Section two: the data model, from src/types (Commit, Package,
PackageVersion). Optional JS fields become Option; the JS undefined of
an absent field is none.
-/

/-- A release type, the semantic version component to increment. -/
inductive ReleaseType where
  | major
  | minor
  | patch
deriving DecidableEq, Fintype

/-- A structured commit record as built by the classifier: id, message,
and when conventional parsing is enabled the parsed type, scope and
breaking flag. -/
structure Commit where
  sha : String
  message : String
  type : Option String
  scope : Option String
  breaking : Option Bool
deriving DecidableEq

/-- A workspace package: name (possibly scoped), repository relative
path, and current version when known. -/
structure Package where
  name : String
  path : String
  version : Option String
deriving DecidableEq

/-- A package version decision produced by `analyzeCommits`. -/
structure PackageVersion where
  name : String
  path : String
  version : Option String
  currentVersion : String
  newVersion : String
  releaseType : ReleaseType
  commits : List Commit
deriving DecidableEq

/-!
Section three: the semantic release parser, embedded from the
SemanticReleaseParser class. The class fields enabled and types become
explicit parameters; the git log and git diff-tree calls become
explicit inputs (the raw log text and a map from commit id to touched
files).
-/

/-- Result of the external conventional-commits parser on one message:
the parsed type, scope, and the titles of the footer notes. Absent JS
fields are none; an absent notes array is the empty list. -/
structure ParsedMessage where
  type : Option String
  scope : Option String
  notes : List String
deriving DecidableEq

/-- Models the JS idiom value or undefined, which turns a falsy string
(empty or absent) into undefined. -/
def jsOrNone : Option String → Option String
  | some "" => none
  | o => o

/-- Default type-to-severity table of the parser. -/
def DEFAULT_TYPES : List (String × String) :=
  [("feat", "minor"), ("fix", "patch"), ("perf", "patch"), ("revert", "patch"),
   ("docs", "patch"), ("style", "patch"), ("refactor", "patch"), ("test", "patch"),
   ("build", "patch"), ("ci", "patch"), ("chore", "patch")]

/-- JS object property lookup on the type-to-severity table. -/
def lookupType (types : List (String × String)) (t : String) : Option String :=
  (types.find? (fun p => p.1 == t)).map (fun p => p.2)

/-- Builds one commit record from one raw log line, embedding the loop
body of getCommits. The line is split on the three character sentinel;
JS destructuring leaves the subject undefined when the line has fewer
than two fields, and the template literal then stringifies it to the
text undefined; the body field defaults to the empty string. -/
def commitOfLine (enabled : Bool) (parse : String → ParsedMessage) (line : String) : Commit :=
  let fields := jsSplit line "|||"
  let sha := fields.getD 0 ""
  let subject := fields.getD 1 "undefined"
  let body := fields.getD 2 ""
  let message := jsTrim (subject ++ "\n\n" ++ body)
  if enabled then
    let parsed := parse message
    { sha := sha, message := message, type := jsOrNone parsed.type,
      scope := jsOrNone parsed.scope,
      breaking := some (parsed.notes.any (fun t => t == "BREAKING CHANGE")) }
  else
    { sha := sha, message := message, type := none, scope := none, breaking := none }

/-- Pure core of getCommits: trims the captured git log output, keeps the
nonempty lines, and builds one commit record per line. -/
def getCommitsFromLog (enabled : Bool) (parse : String → ParsedMessage) (stdout : String) :
    List Commit :=
  ((jsSplit (jsTrim stdout) "\n").filter (fun l => l != "")).map (commitOfLine enabled parse)

/-- Embeds isPackageScope: the scope matches the full package name or the
simple name, where the simple name is the last slash separated segment of
the package name, falling back to the whole name when that segment is
falsy (empty). -/
def isPackageScope (scope packageName : String) : Bool :=
  let popped := (jsSplit packageName "/").getLastD ""
  let simpleName := if popped == "" then packageName else popped
  scope == packageName || scope == simpleName

/-- The path match criterion: some touched file of the commit lies under
the package directory. -/
def affectsPackage (fileMap : String → List String) (pkg : Package) (c : Commit) : Bool :=
  (fileMap c.sha).any (fun file => jsStartsWith file (pkg.path ++ "/"))

/-- The scope match guard of filterCommitsForPackage: the JS truthiness
test on the scope field followed by isPackageScope. -/
def scopeMatchesPackage (pkg : Package) (c : Commit) : Bool :=
  match c.scope with
  | some sc => sc != "" && isPackageScope sc pkg.name
  | none => false

/-- Loop body of filterCommitsForPackage: append the commit on a path
match, then append it on a scope match unless a commit with the same id
is already present. -/
def filterStep (fileMap : String → List String) (pkg : Package)
    (relevant : List Commit) (c : Commit) : List Commit :=
  let relevant1 := if affectsPackage fileMap pkg c then relevant ++ [c] else relevant
  if scopeMatchesPackage pkg c then
    (if relevant1.any (fun c2 => c2.sha == c.sha) then relevant1 else relevant1 ++ [c])
  else relevant1

/-- Embeds filterCommitsForPackage as a fold of `filterStep` over the
commit list, the per commit touched files being supplied by `fileMap`
in place of the batched git diff-tree queries. -/
def filterCommitsForPackage (fileMap : String → List String) (commits : List Commit)
    (pkg : Package) : List Commit :=
  commits.foldl (filterStep fileMap pkg) []

/-- The breaking change test of determineReleaseType: the truthy breaking
flag, or the message containing the literal BREAKING CHANGE marker. -/
def commitIsBreaking (c : Commit) : Bool :=
  c.breaking.getD false || jsIncludes c.message "BREAKING CHANGE"

/-- JS truthiness test on the type field of a commit, as written in the
guard of the type branch of determineReleaseType. -/
def commitTypeKey (c : Commit) : Option String :=
  match c.type with
  | some t => if t == "" then none else some t
  | none => none

/-- Non breaking loop body of determineReleaseType: a type mapped to
minor raises the accumulator to minor; a type mapped to patch raises it
to patch unless it is already minor; anything else leaves it unchanged. -/
def drtStep (types : List (String × String)) (c : Commit)
    (releaseType : Option ReleaseType) : Option ReleaseType :=
  match commitTypeKey c with
  | none => releaseType
  | some t =>
    match lookupType types t with
    | some typeRelease =>
      if typeRelease == "minor" then some ReleaseType.minor
      else if typeRelease == "patch" && releaseType != some ReleaseType.minor then
        some ReleaseType.patch
      else releaseType
    | none => releaseType

/-- Scan of determineReleaseType over the commit list: any breaking
commit returns major at once, otherwise the accumulator is updated by
`drtStep`. -/
def drtLoop (types : List (String × String)) :
    List Commit → Option ReleaseType → Option ReleaseType
  | [], releaseType => releaseType
  | c :: rest, releaseType =>
    if commitIsBreaking c then some ReleaseType.major
    else drtLoop types rest (drtStep types c releaseType)

/-- Embeds determineReleaseType: with conventional commits disabled, a
nonempty list yields patch and an empty one yields none; with them
enabled, the scan `drtLoop` starting from none decides. -/
def determineReleaseType (enabled : Bool) (types : List (String × String))
    (commits : List Commit) : Option ReleaseType :=
  if !enabled then (if commits.length > 0 then some ReleaseType.patch else none)
  else drtLoop types commits none

/-!
Section four: the version calculator. The source delegates parsing,
increment and comparison to the external semver library, which is not
part of this repository; it is modelled here from the specification of
the Version Calculator.
-/

/-- A parsed semantic version, three numeric components. -/
structure SemVer where
  major : Nat
  minor : Nat
  patch : Nat
deriving DecidableEq

/-- Numeric value of a decimal digit character, none on any other character. -/
def digitVal (c : Char) : Option Nat :=
  if c.isDigit then some (c.toNat - 48) else none

/-- Folds a digit list into a number, none on any non digit. -/
def natOfDigits : List Char → Nat → Option Nat
  | [], acc => some acc
  | c :: cs, acc =>
    match digitVal c with
    | none => none
    | some d => natOfDigits cs (acc * 10 + d)

/-- Parses a nonempty all digit string as a number. -/
def parseNatStr (s : String) : Option Nat :=
  match s.data with
  | [] => none
  | l => natOfDigits l 0

/-- Modelled from the spec: the external semver library parse of a
version string as three dot separated numeric components; anything else
is malformed and yields none. -/
def semverParse (s : String) : Option SemVer :=
  match jsSplit s "." with
  | [a, b, c] =>
    match parseNatStr a, parseNatStr b, parseNatStr c with
    | some ma, some mi, some pa => some ⟨ma, mi, pa⟩
    | _, _, _ => none
  | _ => none

/-- Decimal digit character for a value below ten. -/
def digitChar (n : Nat) : Char :=
  "0123456789".data.getD (n % 10) '0'

/-- Fueled decimal printer for a natural number. -/
def natToCharsAux : Nat → Nat → List Char
  | 0, _ => []
  | fuel + 1, n =>
    if n < 10 then [digitChar n] else natToCharsAux fuel (n / 10) ++ [digitChar n]

/-- Decimal string of a natural number. -/
def natToStr (n : Nat) : String :=
  String.mk (natToCharsAux (n + 1) n)

/-- Renders a parsed version back to a dotted string. -/
def semverStr (v : SemVer) : String :=
  natToStr v.major ++ "." ++ natToStr v.minor ++ "." ++ natToStr v.patch

/-- Modelled from the spec: the external semver library increment, major
giving X+1.0.0, minor giving X.Y+1.0 and patch giving X.Y.Z+1; a
malformed current version yields none (the library returns null). -/
def semverInc (currentVersion : String) (rt : ReleaseType) : Option String :=
  match semverParse currentVersion with
  | none => none
  | some v =>
    match rt with
    | ReleaseType.major => some (semverStr ⟨v.major + 1, 0, 0⟩)
    | ReleaseType.minor => some (semverStr ⟨v.major, v.minor + 1, 0⟩)
    | ReleaseType.patch => some (semverStr ⟨v.major, v.minor, v.patch + 1⟩)

/-- Strict lexicographic order on parsed versions. -/
def versionLtB (a b : SemVer) : Bool :=
  Nat.blt a.major b.major ||
    (a.major == b.major &&
      (Nat.blt a.minor b.minor || (a.minor == b.minor && Nat.blt a.patch b.patch)))

/-- Embeds isValidVersionUpgrade: the semver greater-than comparison of
the new version against the current one, where the catch of a comparison
error on an unparseable side answers false. -/
def isValidVersionUpgrade (currentVersion newVersion : String) : Bool :=
  match semverParse newVersion, semverParse currentVersion with
  | some n, some c => versionLtB c n
  | _, _ => false

/-- Models the JS idiom value or default on a possibly absent and
possibly empty version string. -/
def jsOrDefault (o : Option String) (d : String) : String :=
  match o with
  | some v => if v == "" then d else v
  | none => d

/-- Per package body of the analyzeCommits loop: filter the relevant
commits, resolve the release type, increment the current version, and
keep the decision only when the new version is a valid upgrade. -/
def decisionFor (enabled : Bool) (types : List (String × String))
    (fileMap : String → List String) (commits : List Commit) (pkg : Package) :
    Option PackageVersion :=
  let relevantCommits := filterCommitsForPackage fileMap commits pkg
  match determineReleaseType enabled types relevantCommits with
  | none => none
  | some releaseType =>
    let currentVersion := jsOrDefault pkg.version "0.0.0"
    match semverInc currentVersion releaseType with
    | none => none
    | some newVersion =>
      if isValidVersionUpgrade currentVersion newVersion then
        some { name := pkg.name, path := pkg.path, version := pkg.version,
               currentVersion := currentVersion, newVersion := newVersion,
               releaseType := releaseType, commits := relevantCommits }
      else none

/-- Embeds analyzeCommits over an explicit commit list and file map: one
optional decision per package, dropped packages contributing nothing. -/
def analyzeCommits (enabled : Bool) (types : List (String × String))
    (fileMap : String → List String) (commits : List Commit)
    (packages : List Package) : List PackageVersion :=
  packages.filterMap (decisionFor enabled types fileMap commits)

/-!
Section five: the tag manager, embedded from src/tag-manager.ts. The
external world (local tag refs, remote tag refs, hosting releases) is an
explicit state, and every mutating call is recorded in an operation
trace; a returned none models a thrown error.
-/

/-- A hosting release as created by the createRelease API call. -/
structure Release where
  tag_name : String
  name : String
  body : String
  draft : Bool
  prerelease : Bool
deriving DecidableEq

/-- The external state the tag manager reads and mutates. -/
structure GitWorld where
  localTags : List String
  remoteTags : List String
  releases : List (String × Release)
deriving DecidableEq

/-- A mutating call performed against the external world. -/
inductive GitOp where
  | tagCreate (name : String)
  | tagPush (name : String)
  | releaseCreate (tag : String)
deriving DecidableEq

/-- Outcome of createTag: the resulting world, the trace of mutating
calls, and the returned tag name (none models a thrown error). -/
structure TagOutcome where
  world : GitWorld
  ops : List GitOp
  result : Option String
deriving DecidableEq

/-- Outcome of createRelease: the resulting world, the trace of mutating
calls, and the returned release (none is the dry run null). -/
structure ReleaseOutcome where
  world : GitWorld
  ops : List GitOp
  result : Option Release
deriving DecidableEq

/-- Character class of the safe tag pattern of src/validation.ts. -/
def isSafeTagChar (c : Char) : Bool :=
  c.isAlpha || c.isDigit || c == '-' || c == '_' || c == '.' || c == '/' || c == '@'

/-- Embeds sanitizeTagName: none models the thrown error on an empty
name, a name with unsafe characters, or a reserved git reference;
otherwise the name is returned unchanged. -/
def sanitizeTagName (tagName : String) : Option String :=
  if tagName == "" then none
  else if !(tagName.data.all isSafeTagChar) then none
  else if tagName == "HEAD" || jsStartsWith tagName "refs/" then none
  else some tagName

/-- Embeds formatTag. The scheme is the runtime string of the
configuration: npm keeps the name verbatim, slash removes the first at
sign and turns every slash into a dash, standard and any unknown scheme
ignore the name. -/
def formatTag (tagFormat : String) (packageName version : String) : String :=
  if tagFormat == "npm" then packageName ++ "@v" ++ version
  else if tagFormat == "slash" then
    jsReplaceAllChar (jsReplaceFirst packageName "@" "") '/' '-' ++ "/v" ++ version
  else if tagFormat == "standard" then "v" ++ version
  else "v" ++ version

/-- Capitalizes the first character of a word, as charAt zero toUpperCase
plus slice one. -/
def capitalizeWord (w : String) : String :=
  match w.data with
  | [] => ""
  | c :: cs => String.mk (c.toUpper :: cs)

/-- Embeds formatReleaseName: remove the first at sign, turn slashes into
spaces, capitalize every word, append the version. -/
def formatReleaseName (packageName version : String) : String :=
  let displayName := jsReplaceAllChar (jsReplaceFirst packageName "@" "") '/' ' '
  let capitalizedName := String.intercalate " " ((jsSplit displayName " ").map capitalizeWord)
  capitalizedName ++ " v" ++ version

/-- Embeds tagExists: sanitize the name (a thrown error is caught and
answers false), then check the local tag refs and the remote refs. -/
def tagExists (w : GitWorld) (tagName : String) : Bool :=
  match sanitizeTagName tagName with
  | none => false
  | some safe => w.localTags.contains safe || w.remoteTags.contains safe

/-- Embeds isPrerelease: the version contains one of the five known
prerelease keywords. -/
def isPrerelease (version : String) : Bool :=
  jsIncludes version "-alpha" || jsIncludes version "-beta" || jsIncludes version "-rc" ||
    jsIncludes version "-preview" || jsIncludes version "-canary"

/-- Embeds createTag. Dry run returns the formatted name untouched; an
existing tag is returned without mutation; otherwise the sanitized tag
is created locally and pushed. The retry wrapper around the push is
abstracted by the pushOk flag, true meaning some attempt succeeds and
false meaning all attempts fail and the last error propagates. -/
def createTag (dryRun : Bool) (tagFormat : String) (pushOk : Bool)
    (w : GitWorld) (pv : PackageVersion) : TagOutcome :=
  let tagName := formatTag tagFormat pv.name pv.newVersion
  if dryRun then ⟨w, [], some tagName⟩
  else if tagExists w tagName then ⟨w, [], some tagName⟩
  else
    match sanitizeTagName tagName with
    | none => ⟨w, [], none⟩
    | some safeTagName =>
      let w1 : GitWorld := { w with localTags := w.localTags ++ [safeTagName] }
      if pushOk then
        ⟨{ w1 with remoteTags := w1.remoteTags ++ [safeTagName] },
          [GitOp.tagCreate safeTagName, GitOp.tagPush safeTagName], some safeTagName⟩
      else
        ⟨w1, [GitOp.tagCreate safeTagName, GitOp.tagPush safeTagName], none⟩

/-- Embeds the hosting API lookup of a release by tag name. -/
def getReleaseByTag (w : GitWorld) (tag : String) : Option Release :=
  (w.releases.find? (fun p => p.1 == tag)).map (fun p => p.2)

/-- Embeds createRelease. Dry run returns null; an existing release on
the exact tag name is returned unchanged without any creation call;
otherwise a release is created from the request fields. -/
def createRelease (dryRun : Bool) (tagFormat : String) (w : GitWorld)
    (pv : PackageVersion) (changelog : String) : ReleaseOutcome :=
  let tagName := formatTag tagFormat pv.name pv.newVersion
  let releaseName := formatReleaseName pv.name pv.newVersion
  if dryRun then ⟨w, [], none⟩
  else
    match getReleaseByTag w tagName with
    | some existingRelease => ⟨w, [], some existingRelease⟩
    | none =>
      let release : Release :=
        { tag_name := tagName, name := releaseName, body := changelog,
          draft := false, prerelease := isPrerelease pv.newVersion }
      ⟨{ w with releases := w.releases ++ [(tagName, release)] },
        [GitOp.releaseCreate tagName], some release⟩

/-!
Section six: specification side definitions. These follow the words of
the specification, not the source, and are compared against the embedded
code by the refinement theorems below.
-/

/-- Rank of a severity under the fixed precedence major above minor above
patch, with none below everything. -/
def sevRank : Option ReleaseType → Nat
  | none => 0
  | some ReleaseType.patch => 1
  | some ReleaseType.minor => 2
  | some ReleaseType.major => 3

/-- The higher of two severities under `sevRank`, keeping the left one on
a tie. -/
def sevMax (a b : Option ReleaseType) : Option ReleaseType :=
  if sevRank a < sevRank b then b else a

/-- Follows the words of the claim: a severity string names the release
type of the same name. -/
def claimSeverityOfString (s : String) : Option ReleaseType :=
  if s == "major" then some ReleaseType.major
  else if s == "minor" then some ReleaseType.minor
  else if s == "patch" then some ReleaseType.patch
  else none

/-- The severities the code actually tracks: only minor and patch; every
other table value contributes nothing. -/
def trackedSeverityOfString (s : String) : Option ReleaseType :=
  if s == "minor" then some ReleaseType.minor
  else if s == "patch" then some ReleaseType.patch
  else none

/-- Severity contributed by one commit: its truthy type mapped through
the table and read as a severity by the given interpretation. -/
def commitSeverityWith (sevOf : String → Option ReleaseType)
    (types : List (String × String)) (c : Commit) : Option ReleaseType :=
  match commitTypeKey c with
  | none => none
  | some t =>
    match lookupType types t with
    | none => none
    | some s => sevOf s

/-- Follows the words of the specification: the highest severity seen
over the commit list under the fixed precedence. -/
def specHighestSeverity (sevOf : String → Option ReleaseType)
    (types : List (String × String)) (commits : List Commit) : Option ReleaseType :=
  commits.foldr (fun c acc => sevMax (commitSeverityWith sevOf types c) acc) none

/-- Removes the first at sign of a character list, by direct recursion;
used to state what the slash scheme actually does to the package name. -/
def dropFirstAt : List Char → List Char
  | [] => []
  | c :: cs => if c == '@' then cs else c :: dropFirstAt cs

/-- Follows the words of the claim for the slash scheme: strip a leading
at sign, then replace every slash by a dash. -/
def slashSpecTag (name version : String) : String :=
  let stripped := if jsStartsWith name "@" then String.mk (name.data.drop 1) else name
  jsReplaceAllChar stripped '/' '-' ++ "/v" ++ version

/-- A conventional-commits parser stub that recognizes nothing, used to
instantiate the external parser on concrete inputs. -/
def trivialParse : String → ParsedMessage :=
  fun _ => { type := none, scope := none, notes := [] }

/-- Concrete fix commit used by witnesses. -/
def fixCommitW : Commit :=
  { sha := "f1", message := "fix: y", type := some "fix", scope := none,
    breaking := some false }

/-- Concrete feat commit used by witnesses. -/
def featCommitW : Commit :=
  { sha := "f2", message := "feat: x", type := some "feat", scope := none,
    breaking := some false }

/-- Concrete two entry severity table used by witnesses. -/
def fixFeatTypes : List (String × String) :=
  [("fix", "patch"), ("feat", "minor")]

/-- Concrete package used by witnesses. -/
def pkgW : Package :=
  { name := "pkg-a", path := "packages/a", version := some "1.0.0" }

/-- Concrete package with a malformed version used by witnesses. -/
def pkgBadW : Package :=
  { name := "pkg-b", path := "packages/b", version := some "not-a-version" }

/-- Concrete file map used by witnesses: every commit touches one file
under the directory of `pkgW`. -/
def fileMapW : String → List String :=
  fun _ => ["packages/a/src/main.go"]

/-- Concrete package version decision used by witnesses. -/
def pvW : PackageVersion :=
  { name := "pkg-a", path := "packages/a", version := some "1.0.0",
    currentVersion := "1.0.0", newVersion := "1.1.0", releaseType := ReleaseType.minor,
    commits := [featCommitW] }

/-- Concrete disabled-mode commit whose message names a package scope,
used by witnesses. -/
def scopedMsgCommitW : Commit :=
  { sha := "abc", message := "feat(pkg-a): x", type := none, scope := none,
    breaking := none }

/-- Concrete empty external world used by witnesses. -/
def emptyWorldW : GitWorld :=
  { localTags := [], remoteTags := [], releases := [] }

/-- Concrete release object used by witnesses. -/
def releaseW : Release :=
  { tag_name := "pkg-a/v1.1.0", name := "Pkg-a v1.1.0", body := "notes", draft := false,
    prerelease := false }

/-- Concrete world already holding a release for the tag of `pvW` under
the slash scheme, used by witnesses. -/
def releaseWorldW : GitWorld :=
  { localTags := [], remoteTags := [], releases := [("pkg-a/v1.1.0", releaseW)] }


/-!
Section seven: helper lemmas, shared by the claim theorems below.
-/

/-- Correctness of the prefix test: it answers true exactly when the text
extends the pattern. -/
theorem startsWithL_iff : ∀ (pat text : List Char),
    startsWithL pat text = true ↔ ∃ rest, text = pat ++ rest
  | [], text => by simp [startsWithL]
  | p :: ps, [] => by simp [startsWithL]
  | p :: ps, c :: cs => by
    have ih := startsWithL_iff ps cs
    simp only [startsWithL, Bool.and_eq_true, beq_iff_eq, ih, List.cons_append,
      List.cons.injEq]
    constructor
    · rintro ⟨rfl, rest, rfl⟩
      exact ⟨rest, rfl, rfl⟩
    · rintro ⟨rest, rfl, rfl⟩
      exact ⟨rfl, rest, rfl⟩

/-- Correctness of the containment test: it answers true exactly when the
text splits around the pattern. -/
theorem containsL_iff : ∀ (pat text : List Char),
    containsL pat text = true ↔ ∃ pre rest, text = pre ++ (pat ++ rest)
  | pat, [] => by
    simp only [containsL, startsWithL_iff]
    constructor
    · rintro ⟨rest, h⟩
      exact ⟨[], rest, h⟩
    · rintro ⟨pre, rest, h⟩
      rcases List.append_eq_nil.mp h.symm with ⟨rfl, h2⟩
      exact ⟨rest, by simpa using h2.symm⟩
  | pat, c :: cs => by
    have ih := containsL_iff pat cs
    simp only [containsL, Bool.or_eq_true, startsWithL_iff, ih]
    constructor
    · rintro (⟨rest, h⟩ | ⟨pre, rest, h⟩)
      · exact ⟨[], rest, by simpa using h⟩
      · exact ⟨c :: pre, rest, by simp [h]⟩
    · rintro ⟨pre, rest, h⟩
      cases pre with
      | nil => exact Or.inl ⟨rest, by simpa using h⟩
      | cons a as =>
        rw [List.cons_append, List.cons.injEq] at h
        exact Or.inr ⟨as, rest, h.2⟩

/-- String level reading of the containment test. -/
theorem jsIncludes_iff (s pat : String) :
    jsIncludes s pat = true ↔ ∃ a b : String, s = a ++ pat ++ b := by
  rw [jsIncludes, containsL_iff]
  constructor
  · rintro ⟨pre, rest, h⟩
    refine ⟨String.mk pre, String.mk rest, String.ext ?_⟩
    simpa [String.data_append] using h
  · rintro ⟨a, b, rfl⟩
    exact ⟨a.data, b.data, by simp [String.data_append]⟩

/-- The empty severity is a right unit for `sevMax`. -/
theorem sevMax_none_right : ∀ a : Option ReleaseType, sevMax a none = a := by decide

/-- The empty severity is a left unit for `sevMax`. -/
theorem sevMax_none_left : ∀ a : Option ReleaseType, sevMax none a = a := by decide

/-- `sevMax` is associative. -/
theorem sevMax_assoc : ∀ a b c : Option ReleaseType,
    sevMax (sevMax a b) c = sevMax a (sevMax b c) := by decide

/-- `sevMax` is left commutative. -/
theorem sevMax_left_comm : ∀ a b c : Option ReleaseType,
    sevMax a (sevMax b c) = sevMax b (sevMax a c) := by decide

/-- Below major, raising to minor is taking the maximum with minor. -/
theorem sevMax_minor_absorb : ∀ a : Option ReleaseType, sevRank a ≤ 2 →
    sevMax a (some ReleaseType.minor) = some ReleaseType.minor := by decide

/-- Below major, the patch branch of the loop is taking the maximum with
patch. -/
theorem sevMax_patch_branch : ∀ a : Option ReleaseType, sevRank a ≤ 2 →
    (if a != some ReleaseType.minor then some ReleaseType.patch else a) =
      sevMax a (some ReleaseType.patch) := by decide

/-- `sevMax` of two severities below major stays below major. -/
theorem sevRank_sevMax_le : ∀ a b : Option ReleaseType,
    sevRank a ≤ 2 → sevRank b ≤ 2 → sevRank (sevMax a b) ≤ 2 := by decide

/-- The tracked interpretation never produces major. -/
theorem trackedSeverity_le (s : String) : sevRank (trackedSeverityOfString s) ≤ 2 := by
  unfold trackedSeverityOfString
  split
  · decide
  · split
    · decide
    · decide

/-- The severity contributed by a commit under the tracked interpretation
stays below major. -/
theorem commitSeverity_tracked_le (types : List (String × String)) (c : Commit) :
    sevRank (commitSeverityWith trackedSeverityOfString types c) ≤ 2 := by
  rcases htk : commitTypeKey c with - | t
  · simp only [commitSeverityWith, htk]
    decide
  · rcases hlk : lookupType types t with - | s
    · simp only [commitSeverityWith, htk, hlk]
      decide
    · simp only [commitSeverityWith, htk, hlk]
      exact trackedSeverity_le s

/-- The non breaking loop body computes the maximum of the accumulator
with the severity the commit contributes under the tracked
interpretation, as long as the accumulator is below major. -/
theorem drtStep_eq_sevMax (types : List (String × String)) (c : Commit)
    (acc : Option ReleaseType) (hacc : sevRank acc ≤ 2) :
    drtStep types c acc = sevMax acc (commitSeverityWith trackedSeverityOfString types c) := by
  rcases htk : commitTypeKey c with - | t
  · simp only [drtStep, commitSeverityWith, htk]
    exact (sevMax_none_right acc).symm
  · rcases hlk : lookupType types t with - | s
    · simp only [drtStep, commitSeverityWith, htk, hlk]
      exact (sevMax_none_right acc).symm
    · simp only [drtStep, commitSeverityWith, htk, hlk]
      by_cases hm : s = "minor"
      · subst hm
        exact (sevMax_minor_absorb acc hacc).symm
      · by_cases hp : s = "patch"
        · subst hp
          exact sevMax_patch_branch acc hacc
        · rw [if_neg (by simpa using hm), if_neg (by simp [hp])]
          unfold trackedSeverityOfString
          rw [if_neg (by simpa using hm), if_neg (by simpa using hp)]
          exact (sevMax_none_right acc).symm

/-- A breaking commit anywhere in the list forces the scan to major. -/
theorem drtLoop_of_breaking (types : List (String × String)) :
    ∀ (commits : List Commit) (acc : Option ReleaseType),
      (∃ c ∈ commits, commitIsBreaking c = true) →
      drtLoop types commits acc = some ReleaseType.major
  | [], _, h => by simp at h
  | c :: rest, acc, h => by
    by_cases hb : commitIsBreaking c = true
    · simp [drtLoop, hb]
    · have h2 : ∃ x ∈ rest, commitIsBreaking x = true := by
        obtain ⟨x, hx, hbx⟩ := h
        rcases List.mem_cons.mp hx with rfl | hx2
        · exact absurd hbx hb
        · exact ⟨x, hx2, hbx⟩
      rw [drtLoop, if_neg hb]
      exact drtLoop_of_breaking types rest _ h2

/-- With no breaking commit and an accumulator below major, the scan
computes the maximum of the accumulator with the highest tracked
severity of the list. -/
theorem drtLoop_eq_spec (types : List (String × String)) :
    ∀ (commits : List Commit) (acc : Option ReleaseType),
      (∀ c ∈ commits, commitIsBreaking c = false) → sevRank acc ≤ 2 →
      drtLoop types commits acc =
        sevMax acc (specHighestSeverity trackedSeverityOfString types commits)
  | [], acc, _, _ => by
    simp [drtLoop, specHighestSeverity, sevMax_none_right]
  | c :: rest, acc, hnb, hacc => by
    have hb : commitIsBreaking c = false := hnb c (List.mem_cons_self c rest)
    have hrest : ∀ x ∈ rest, commitIsBreaking x = false :=
      fun x hx => hnb x (List.mem_cons_of_mem c hx)
    have hle : sevRank (drtStep types c acc) ≤ 2 := by
      rw [drtStep_eq_sevMax types c acc hacc]
      exact sevRank_sevMax_le _ _ hacc (commitSeverity_tracked_le types c)
    rw [drtLoop, if_neg (by simp [hb])]
    rw [drtLoop_eq_spec types rest (drtStep types c acc) hrest hle]
    rw [drtStep_eq_sevMax types c acc hacc, sevMax_assoc]
    rfl

/-- A fold of `sevMax` contributions is invariant under permutation of
the list. -/
theorem foldr_sevMax_perm (g : Commit → Option ReleaseType) :
    ∀ {l1 l2 : List Commit}, l1.Perm l2 → ∀ init : Option ReleaseType,
      l1.foldr (fun c acc => sevMax (g c) acc) init =
        l2.foldr (fun c acc => sevMax (g c) acc) init := by
  intro l1 l2 h
  induction h with
  | nil => intro init; rfl
  | cons x h ih => intro init; simp only [List.foldr_cons]; rw [ih init]
  | swap x y l => intro init; simp only [List.foldr_cons]; exact sevMax_left_comm _ _ _
  | trans h1 h2 ih1 ih2 => intro init; exact (ih1 init).trans (ih2 init)

/-- The highest severity seen is invariant under permutation of the
commit list. -/
theorem specHighest_perm (sevOf : String → Option ReleaseType)
    (types : List (String × String)) {l1 l2 : List Commit} (h : l1.Perm l2) :
    specHighestSeverity sevOf types l1 = specHighestSeverity sevOf types l2 :=
  foldr_sevMax_perm (commitSeverityWith sevOf types) h none

/-- A successful validity check yields both parses and the strict
comparison. -/
theorem isValidVersionUpgrade_exists (cur nv : String)
    (h : isValidVersionUpgrade cur nv = true) :
    ∃ cv nvv, semverParse cur = some cv ∧ semverParse nv = some nvv ∧
      versionLtB cv nvv = true := by
  rcases hn : semverParse nv with - | n
  · simp only [isValidVersionUpgrade, hn] at h
    exact Bool.noConfusion h
  · rcases hc : semverParse cur with - | c
    · simp only [isValidVersionUpgrade, hn, hc] at h
      exact Bool.noConfusion h
    · simp only [isValidVersionUpgrade, hn, hc] at h
      exact ⟨c, n, rfl, rfl, h⟩

/-- Every decision the per package body produces passed the validity
check on its own version fields. -/
theorem decisionFor_valid (enabled : Bool) (types : List (String × String))
    (fileMap : String → List String) (commits : List Commit) (pkg : Package)
    (d : PackageVersion)
    (h : decisionFor enabled types fileMap commits pkg = some d) :
    isValidVersionUpgrade d.currentVersion d.newVersion = true := by
  rcases hrt : determineReleaseType enabled types (filterCommitsForPackage fileMap commits pkg)
    with - | rt
  · simp only [decisionFor, hrt] at h
    exact Option.noConfusion h
  · rcases hinc : semverInc (jsOrDefault pkg.version "0.0.0") rt with - | nv
    · simp only [decisionFor, hrt, hinc] at h
      exact Option.noConfusion h
    · by_cases hval : isValidVersionUpgrade (jsOrDefault pkg.version "0.0.0") nv = true
      · simp only [decisionFor, hrt, hinc, if_pos hval] at h
        have h2 := Option.some.inj h
        subst h2
        exact hval
      · simp only [decisionFor, hrt, hinc, if_neg hval] at h
        exact Option.noConfusion h

/-- A package whose effective current version does not parse yields no
decision. -/
theorem decisionFor_malformed (enabled : Bool) (types : List (String × String))
    (fileMap : String → List String) (commits : List Commit) (pkg : Package)
    (h : semverParse (jsOrDefault pkg.version "0.0.0") = none) :
    decisionFor enabled types fileMap commits pkg = none := by
  rcases hrt : determineReleaseType enabled types (filterCommitsForPackage fileMap commits pkg)
    with - | rt
  · simp only [decisionFor, hrt]
  · simp only [decisionFor, hrt, semverInc, h]

/-- With every scope absent, the attribution fold reduces to a filter by
the path criterion. -/
theorem foldl_filterStep_scopeless (fileMap : String → List String) (pkg : Package) :
    ∀ (commits acc : List Commit), (∀ c ∈ commits, c.scope = none) →
      commits.foldl (filterStep fileMap pkg) acc =
        acc ++ commits.filter (fun c => affectsPackage fileMap pkg c)
  | [], acc, _ => by simp
  | c :: rest, acc, h => by
    have hsc : c.scope = none := h c (List.mem_cons_self c rest)
    have hrest : ∀ x ∈ rest, x.scope = none := fun x hx => h x (List.mem_cons_of_mem c hx)
    have hstep : filterStep fileMap pkg acc c =
        if affectsPackage fileMap pkg c then acc ++ [c] else acc := by
      simp [filterStep, scopeMatchesPackage, hsc]
    rw [List.foldl_cons, hstep, List.filter_cons]
    by_cases ha : affectsPackage fileMap pkg c = true
    · rw [if_pos ha, if_pos ha, foldl_filterStep_scopeless fileMap pkg rest (acc ++ [c]) hrest]
      simp
    · rw [if_neg ha, if_neg (by simpa using ha),
        foldl_filterStep_scopeless fileMap pkg rest acc hrest]

/-- Replacing the first at sign by nothing is dropping the first at
sign. -/
theorem replaceFirstL_at_eq_drop : ∀ l : List Char,
    replaceFirstL ['@'] [] l = dropFirstAt l
  | [] => rfl
  | c :: cs => by
    by_cases h : c = '@'
    · subst h
      simp [replaceFirstL, dropFirstAt, startsWithL]
    · simp [replaceFirstL, dropFirstAt, startsWithL, h, Ne.symm h,
        replaceFirstL_at_eq_drop cs]

/-!
Section eight: the claim theorems.
-/

/-- C1: with conventional commit parsing enabled, if some commit of the
list has its breaking flag set or has a message containing the literal
BREAKING CHANGE, then determineReleaseType answers major, whatever the
severity table, the other commits and the position of the breaking
commit. -/
theorem determineReleaseType_breaking_major (types : List (String × String))
    (commits : List Commit)
    (h : ∃ c ∈ commits, c.breaking = some true ∨
      ∃ a b : String, c.message = a ++ "BREAKING CHANGE" ++ b) :
    determineReleaseType true types commits = some ReleaseType.major := by
  obtain ⟨c, hmem, hbr⟩ := h
  have hb : commitIsBreaking c = true := by
    rcases hbr with h1 | h2
    · simp [commitIsBreaking, h1]
    · have h3 : jsIncludes c.message "BREAKING CHANGE" = true :=
        (jsIncludes_iff c.message "BREAKING CHANGE").mpr h2
      simp [commitIsBreaking, h3]
  have h4 := drtLoop_of_breaking types commits none ⟨c, hmem, hb⟩
  simpa [determineReleaseType] using h4

/-- Witness for C1 at a concrete list whose second commit is breaking. -/
theorem determineReleaseType_breaking_major_witness :
    determineReleaseType true DEFAULT_TYPES
      [{ sha := "a1", message := "fix: y", type := some "fix", scope := none,
         breaking := some false },
       { sha := "b2", message := "feat: x\n\nBREAKING CHANGE: api changed",
         type := some "feat", scope := none, breaking := some true }] =
      some ReleaseType.major :=
  determineReleaseType_breaking_major DEFAULT_TYPES _
    ⟨{ sha := "b2", message := "feat: x\n\nBREAKING CHANGE: api changed",
       type := some "feat", scope := none, breaking := some true },
     by decide, Or.inl rfl⟩

/-- C2 counterexample: under the table sending feat to major, a single
feat commit makes determineReleaseType answer none although the highest
severity seen under the claim reading of the table is major, so the
result is not the highest severity seen. -/
theorem determineReleaseType_table_counterexample :
    ¬(determineReleaseType true [("feat", "major")]
        [{ sha := "s1", message := "feat: x", type := some "feat", scope := none,
           breaking := some false }] =
      specHighestSeverity claimSeverityOfString [("feat", "major")]
        [{ sha := "s1", message := "feat: x", type := some "feat", scope := none,
           breaking := some false }]) := by decide

/-- C2 amended: with parsing enabled and no breaking commit, the result
is the highest severity seen under the precedence minor above patch,
where only the table values minor and patch count (any other value,
major included, contributes nothing), and the result is invariant under
permutation of the commit list. -/
theorem determineReleaseType_highest_severity (types : List (String × String))
    (commits : List Commit)
    (hnb : ∀ c ∈ commits, ¬(c.breaking = some true ∨
      ∃ a b : String, c.message = a ++ "BREAKING CHANGE" ++ b)) :
    determineReleaseType true types commits =
        specHighestSeverity trackedSeverityOfString types commits ∧
      ∀ commits2, commits.Perm commits2 →
        determineReleaseType true types commits =
          determineReleaseType true types commits2 := by
  have hconv : ∀ (cs : List Commit),
      (∀ c ∈ cs, ¬(c.breaking = some true ∨
        ∃ a b : String, c.message = a ++ "BREAKING CHANGE" ++ b)) →
      ∀ c ∈ cs, commitIsBreaking c = false := by
    intro cs hcs c hc
    have h1 := hcs c hc
    show (c.breaking.getD false || jsIncludes c.message "BREAKING CHANGE") = false
    rw [Bool.or_eq_false_iff]
    constructor
    · rcases hb : c.breaking with - | b
      · rfl
      · cases b
        · rfl
        · exact absurd (Or.inl hb) h1
    · rw [Bool.eq_false_iff]
      intro hI
      exact h1 (Or.inr ((jsIncludes_iff c.message "BREAKING CHANGE").mp hI))
  have main : ∀ (cs : List Commit), (∀ c ∈ cs, commitIsBreaking c = false) →
      determineReleaseType true types cs =
        specHighestSeverity trackedSeverityOfString types cs := by
    intro cs h
    have h2 := drtLoop_eq_spec types cs none h (by decide)
    rw [sevMax_none_left] at h2
    simpa [determineReleaseType] using h2
  refine ⟨main commits (hconv commits hnb), fun commits2 hp => ?_⟩
  have hnb2 : ∀ c ∈ commits2, ¬(c.breaking = some true ∨
      ∃ a b : String, c.message = a ++ "BREAKING CHANGE" ++ b) :=
    fun c hc => hnb c (hp.mem_iff.mpr hc)
  rw [main commits (hconv commits hnb), main commits2 (hconv commits2 hnb2)]
  exact specHighest_perm trackedSeverityOfString types hp

/-- Witness for C2 at the fix and feat commit pair of the claim, in both
orders, the severity seen being minor. -/
theorem determineReleaseType_highest_severity_witness :
    (determineReleaseType true fixFeatTypes [fixCommitW, featCommitW] =
      specHighestSeverity trackedSeverityOfString fixFeatTypes [fixCommitW, featCommitW]) ∧
      (determineReleaseType true fixFeatTypes [fixCommitW, featCommitW] =
        determineReleaseType true fixFeatTypes [featCommitW, fixCommitW]) ∧
      determineReleaseType true fixFeatTypes [fixCommitW, featCommitW] =
        some ReleaseType.minor := by
  have hnbW : ∀ c ∈ [fixCommitW, featCommitW],
      ¬(c.breaking = some true ∨
        ∃ a b : String, c.message = a ++ "BREAKING CHANGE" ++ b) := by
    intro c hc
    rcases List.mem_cons.mp hc with rfl | hc2
    · rintro (hb | hex)
      · exact absurd hb (by decide)
      · exact absurd ((jsIncludes_iff _ "BREAKING CHANGE").mpr hex) (by decide)
    · rcases List.mem_cons.mp hc2 with rfl | hc3
      · rintro (hb | hex)
        · exact absurd hb (by decide)
        · exact absurd ((jsIncludes_iff _ "BREAKING CHANGE").mpr hex) (by decide)
      · cases hc3
  refine ⟨(determineReleaseType_highest_severity _ _ hnbW).1,
    (determineReleaseType_highest_severity _ _ hnbW).2 _ (List.Perm.swap _ _ _), by decide⟩

/-- C3: every decision analyzeCommits returns has a current and a new
version that both parse, with the new one strictly greater under the
semantic version order; and a package whose effective current version
does not parse contributes no decision at all (so in particular the
analysis returns normally instead of failing). -/
theorem analyzeCommits_version_invariant (enabled : Bool) (types : List (String × String))
    (fileMap : String → List String) (commits : List Commit) (packages : List Package) :
    (∀ d ∈ analyzeCommits enabled types fileMap commits packages,
      ∃ cv nvv, semverParse d.currentVersion = some cv ∧
        semverParse d.newVersion = some nvv ∧ versionLtB cv nvv = true) ∧
    (∀ pkg : Package, semverParse (jsOrDefault pkg.version "0.0.0") = none →
      decisionFor enabled types fileMap commits pkg = none ∧
      ∀ rest : List Package, analyzeCommits enabled types fileMap commits (pkg :: rest) =
        analyzeCommits enabled types fileMap commits rest) := by
  constructor
  · intro d hd
    rw [analyzeCommits, List.mem_filterMap] at hd
    obtain ⟨pkg, -, hdec⟩ := hd
    exact isValidVersionUpgrade_exists _ _
      (decisionFor_valid enabled types fileMap commits pkg d hdec)
  · intro pkg hmal
    have hnone := decisionFor_malformed enabled types fileMap commits pkg hmal
    refine ⟨hnone, fun rest => ?_⟩
    simp [analyzeCommits, List.filterMap_cons, hnone]

/-- Witness for C3: a concrete run produces the decision `pvW`, whose
versions parse and strictly increase, while the package with a malformed
version is dropped from a concrete run. -/
theorem analyzeCommits_version_invariant_witness :
    (∃ cv nvv, semverParse pvW.currentVersion = some cv ∧
      semverParse pvW.newVersion = some nvv ∧ versionLtB cv nvv = true) ∧
    decisionFor true DEFAULT_TYPES fileMapW [featCommitW] pkgBadW = none ∧
    analyzeCommits true DEFAULT_TYPES fileMapW [featCommitW] [pkgBadW] =
      analyzeCommits true DEFAULT_TYPES fileMapW [featCommitW] [] :=
  ⟨(analyzeCommits_version_invariant true DEFAULT_TYPES fileMapW [featCommitW] [pkgW]).1
      pvW (by decide),
   ((analyzeCommits_version_invariant true DEFAULT_TYPES fileMapW [featCommitW]
      [pkgBadW]).2 pkgBadW (by decide)).1,
   ((analyzeCommits_version_invariant true DEFAULT_TYPES fileMapW [featCommitW]
      [pkgBadW]).2 pkgBadW (by decide)).2 []⟩

/-- C4: createTag is idempotent in non dry run mode. When the existence
check reports the tag present, the call returns the tag name with no
mutation and no error; when the tag is absent (and its name is safe),
the first call performs exactly one creation and one push and a second
call on the resulting world returns the same name with no mutation. -/
theorem createTag_idempotent (tagFormat : String) (pushOk : Bool) (w : GitWorld)
    (pv : PackageVersion)
    (hsafe : sanitizeTagName (formatTag tagFormat pv.name pv.newVersion) =
      some (formatTag tagFormat pv.name pv.newVersion)) :
    (tagExists w (formatTag tagFormat pv.name pv.newVersion) = true →
      createTag false tagFormat pushOk w pv =
        ⟨w, [], some (formatTag tagFormat pv.name pv.newVersion)⟩) ∧
    (tagExists w (formatTag tagFormat pv.name pv.newVersion) = false →
      (createTag false tagFormat true w pv).ops =
        [GitOp.tagCreate (formatTag tagFormat pv.name pv.newVersion),
         GitOp.tagPush (formatTag tagFormat pv.name pv.newVersion)] ∧
      (createTag false tagFormat true w pv).result =
        some (formatTag tagFormat pv.name pv.newVersion) ∧
      createTag false tagFormat true ((createTag false tagFormat true w pv).world) pv =
        ⟨(createTag false tagFormat true w pv).world, [],
         some (formatTag tagFormat pv.name pv.newVersion)⟩) := by
  constructor
  · intro hex
    simp [createTag, hex]
  · intro hnex
    have h1 : createTag false tagFormat true w pv =
        ⟨{ w with
            localTags := w.localTags ++ [formatTag tagFormat pv.name pv.newVersion],
            remoteTags := w.remoteTags ++ [formatTag tagFormat pv.name pv.newVersion] },
          [GitOp.tagCreate (formatTag tagFormat pv.name pv.newVersion),
           GitOp.tagPush (formatTag tagFormat pv.name pv.newVersion)],
          some (formatTag tagFormat pv.name pv.newVersion)⟩ := by
      simp [createTag, hnex, hsafe]
    have hex2 : tagExists
        { w with
            localTags := w.localTags ++ [formatTag tagFormat pv.name pv.newVersion],
            remoteTags := w.remoteTags ++ [formatTag tagFormat pv.name pv.newVersion] }
        (formatTag tagFormat pv.name pv.newVersion) = true := by
      simp [tagExists, hsafe]
    refine ⟨by rw [h1], by rw [h1], ?_⟩
    rw [h1]
    simp [createTag, hex2]

/-- Witness for C4: a fresh world, the slash scheme and the decision
`pvW`; the first call creates and pushes once, the second is a no-op
returning the same name. -/
theorem createTag_idempotent_witness :
    (createTag false "slash" true emptyWorldW pvW).ops =
        [GitOp.tagCreate (formatTag "slash" pvW.name pvW.newVersion),
         GitOp.tagPush (formatTag "slash" pvW.name pvW.newVersion)] ∧
      (createTag false "slash" true emptyWorldW pvW).result =
        some (formatTag "slash" pvW.name pvW.newVersion) ∧
      createTag false "slash" true ((createTag false "slash" true emptyWorldW pvW).world) pvW =
        ⟨(createTag false "slash" true emptyWorldW pvW).world, [],
         some (formatTag "slash" pvW.name pvW.newVersion)⟩ :=
  (createTag_idempotent "slash" true emptyWorldW pvW (by decide)).2 (by decide)

/-- C5 counterexample: on the package name with an interior at sign the
slash scheme removes that at sign although it is not leading, so the
strip-the-leading-at-sign reading of the claim fails. -/
theorem formatTag_slash_counterexample :
    ¬(formatTag "slash" "a@b" "1.0.0" = slashSpecTag "a@b" "1.0.0") := by decide

/-- C5 amended: the npm scheme keeps the name verbatim, the slash scheme
removes the first at sign (wherever it occurs) and turns every slash
into a dash, the standard scheme and every unknown scheme ignore the
name; the three concrete examples of the claim hold. -/
theorem formatTag_schemes :
    (∀ name version : String, formatTag "npm" name version = name ++ "@v" ++ version) ∧
    (∀ name version : String, formatTag "slash" name version =
      String.mk ((dropFirstAt name.data).map (fun c => if c == '/' then '-' else c)) ++
        "/v" ++ version) ∧
    (∀ name version : String, formatTag "standard" name version = "v" ++ version) ∧
    (∀ fmt name version : String, fmt ≠ "npm" → fmt ≠ "slash" → fmt ≠ "standard" →
      formatTag fmt name version = "v" ++ version) ∧
    formatTag "slash" "@myorg/package" "1.1.0" = "myorg-package/v1.1.0" ∧
    formatTag "npm" "@myorg/package" "1.1.0" = "@myorg/package@v1.1.0" ∧
    formatTag "standard" "@myorg/package" "1.1.0" = "v1.1.0" := by
  refine ⟨fun name version => rfl, fun name version => ?_, fun name version => rfl,
    fun fmt name version h1 h2 h3 => ?_, by decide, by decide, by decide⟩
  · show jsReplaceAllChar (jsReplaceFirst name "@" "") '/' '-' ++ "/v" ++ version = _
    have hdrop : jsReplaceFirst name "@" "" = String.mk (dropFirstAt name.data) := by
      show String.mk (replaceFirstL ['@'] [] name.data) = String.mk (dropFirstAt name.data)
      rw [replaceFirstL_at_eq_drop]
    rw [hdrop]
    rfl
  · simp only [formatTag, beq_iff_eq, if_neg h1, if_neg h2, if_neg h3]

/-- Witness for C5 discharging the unknown scheme hypotheses at a
concrete scheme name. -/
theorem formatTag_schemes_witness :
    formatTag "calver" "@myorg/package" "1.1.0" = "v" ++ "1.1.0" :=
  formatTag_schemes.2.2.2.1 "calver" "@myorg/package" "1.1.0"
    (by decide) (by decide) (by decide)

/-- C6: createRelease is an idempotent no-op on conflict: in non dry run
mode, when the lookup finds an existing release for the exact tag name,
that release is returned unchanged, the world is untouched and no
creation call is made. -/
theorem createRelease_idempotent (tagFormat : String) (w : GitWorld) (pv : PackageVersion)
    (changelog : String) (r : Release)
    (h : getReleaseByTag w (formatTag tagFormat pv.name pv.newVersion) = some r) :
    createRelease false tagFormat w pv changelog = ⟨w, [], some r⟩ := by
  simp [createRelease, h]

/-- Witness for C6 on a concrete world already holding the release. -/
theorem createRelease_idempotent_witness :
    createRelease false "slash" releaseWorldW pvW "some changelog" =
      ⟨releaseWorldW, [], some releaseW⟩ :=
  createRelease_idempotent "slash" releaseWorldW pvW "some changelog" releaseW (by decide)

/-- C7 counterexample: the empty scope does match the empty package name
(the code answers true), contradicting the claim that an empty scope or
an empty package name never matches; and on a name whose last slash
separated segment is empty the code answers false for the empty scope
although the claimed comparison with the popped segment would match. -/
theorem isPackageScope_counterexample :
    isPackageScope "" "" = true ∧
      isPackageScope "" "a/" = false ∧ "" = (jsSplit "a/" "/").getLastD "" := by
  refine ⟨by decide, by decide, by decide⟩

/-- C7 amended: isPackageScope answers true exactly when the scope equals
the package name, or the last slash separated segment of the name is
nonempty and the scope equals it; in particular the empty scope matches
exactly the empty package name. -/
theorem isPackageScope_iff (scope name : String) :
    isPackageScope scope name = true ↔
      (scope = name ∨
        ((jsSplit name "/").getLastD "" ≠ "" ∧ scope = (jsSplit name "/").getLastD "")) := by
  by_cases h : (jsSplit name "/").getLast?.getD "" = ""
  · simp [isPackageScope, List.getLastD_eq_getLast?, h]
  · simp [isPackageScope, List.getLastD_eq_getLast?, h]

/-- Witness for C7: the short name of a scoped package matches its
scope. -/
theorem isPackageScope_iff_witness :
    isPackageScope "ui" "@myorg/ui" = true :=
  (isPackageScope_iff "ui" "@myorg/ui").mpr (Or.inr ⟨by decide, by decide⟩)

/-- C8: on a raw log line with no delimiter the reader still emits a
record whose id is the whole line, but its message is the literal text
undefined (the stringification of the missing subject field), not the
raw remainder of the line as the claim states. -/
theorem getCommits_no_delimiter_line :
    getCommitsFromLog false trivialParse "abc123" =
      [{ sha := "abc123", message := "undefined", type := none, scope := none,
         breaking := none }] := by decide

/-- C9: isPrerelease answers true exactly when the version contains one
of the five substrings -alpha, -beta, -rc, -preview, -canary, and the
two examples of the claim evaluate as stated. -/
theorem isPrerelease_iff :
    (∀ v : String, isPrerelease v = true ↔
      ((∃ a b : String, v = a ++ "-alpha" ++ b) ∨ (∃ a b : String, v = a ++ "-beta" ++ b) ∨
       (∃ a b : String, v = a ++ "-rc" ++ b) ∨ (∃ a b : String, v = a ++ "-preview" ++ b) ∨
       (∃ a b : String, v = a ++ "-canary" ++ b))) ∧
    isPrerelease "1.1.0-beta.1" = true ∧ isPrerelease "1.1.0-gamma" = false := by
  refine ⟨fun v => ?_, by decide, by decide⟩
  simp only [isPrerelease, Bool.or_eq_true, jsIncludes_iff, or_assoc]

/-- Witness for C9 exhibiting a release candidate version through the
characterization. -/
theorem isPrerelease_iff_witness :
    isPrerelease "2.0.0-rc.1" = true :=
  (isPrerelease_iff.1 "2.0.0-rc.1").mpr
    (Or.inr (Or.inr (Or.inl ⟨"2.0.0", ".1", by decide⟩)))

/-- C10: with conventional parsing disabled every commit record carries
only id and message (type, scope and breaking stay absent), so package
attribution reduces to exactly the path criterion: a commit is selected
iff it touches a file under the package directory, and a commit naming
the package in its message while touching none of its files is not
attributed. -/
theorem filterCommits_disabled_path_only (parse : String → ParsedMessage) (stdout : String)
    (fileMap : String → List String) (pkg : Package) :
    filterCommitsForPackage fileMap (getCommitsFromLog false parse stdout) pkg =
        (getCommitsFromLog false parse stdout).filter
          (fun c => affectsPackage fileMap pkg c) ∧
      ∀ c ∈ getCommitsFromLog false parse stdout,
        c.type = none ∧ c.scope = none ∧ c.breaking = none := by
  have hscope : ∀ c ∈ getCommitsFromLog false parse stdout,
      c.type = none ∧ c.scope = none ∧ c.breaking = none := by
    intro c hc
    rw [getCommitsFromLog, List.mem_map] at hc
    obtain ⟨line, -, rfl⟩ := hc
    exact ⟨rfl, rfl, rfl⟩
  refine ⟨?_, hscope⟩
  have h0 := foldl_filterStep_scopeless fileMap pkg (getCommitsFromLog false parse stdout) []
    (fun c hc => (hscope c hc).2.1)
  simpa [filterCommitsForPackage] using h0

/-- Witness for C10: a disabled-mode commit whose message carries a scope
naming the package but which touches no file is not attributed. -/
theorem filterCommits_disabled_path_only_witness :
    (filterCommitsForPackage (fun _ => ([] : List String))
        (getCommitsFromLog false trivialParse "abc|||feat(pkg-a): x|||") pkgW =
      (getCommitsFromLog false trivialParse "abc|||feat(pkg-a): x|||").filter
        (fun c => affectsPackage (fun _ => ([] : List String)) pkgW c)) ∧
    scopedMsgCommitW.type = none ∧ scopedMsgCommitW.scope = none ∧
      scopedMsgCommitW.breaking = none :=
  ⟨(filterCommits_disabled_path_only trivialParse "abc|||feat(pkg-a): x|||"
      (fun _ => ([] : List String)) pkgW).1,
   (filterCommits_disabled_path_only trivialParse "abc|||feat(pkg-a): x|||"
      (fun _ => ([] : List String)) pkgW).2 _ (by decide)⟩

end TurboGoreleaser
